import Mathlib

/-!
Verification of the fused recurrent IPLR delta-rule kernel and the
GatedSlotAttention layer from `flash-linear-attention`.

The kernels (`fused_recurrent_fwd_kernel`, `fused_recurrent_bwd_kernel` in
`fla/ops/generalized_delta_rule/iplr/fused_recurrent.py`) are embedded as
exact rational-arithmetic recurrences.  A per-(batch, head, V-block) program
owns a K×V matrix state, here `Mat K V := Fin K → Fin V → ℚ`, and consumes a
list of per-timestep inputs.  Each Lean definition mirrors one loop of the
Triton source; the float32 accumulator becomes exact `ℚ` arithmetic.
-/

open Finset

/-- One timestep of forward input for one (batch, head):
the rows `q_t, k_t, a_t, b_t : [K]` and `v_t : [V]` of the input tensors. -/
structure TStep (K V : ℕ) where
  q : Fin K → ℚ
  k : Fin K → ℚ
  v : Fin V → ℚ
  a : Fin K → ℚ
  b : Fin K → ℚ

/-- The per-(batch, head) state matrix, memory layout `[K, V]`
(the kernel's register tile `b_h[BV, BK]` transposed to match the
`h0`/`ht` buffer layout `h0 + k*V + v`). -/
def Mat (K V : ℕ) := Fin K → Fin V → ℚ

/-- The zero state: `b_h = tl.zeros([BV, BK])`. -/
def Mat.zero (K V : ℕ) : Mat K V := fun _ _ => 0

instance : DecidableEq (Mat K V) :=
  fun f g => decidable_of_iff (∀ i j, f i j = g i j)
    ⟨fun h => funext fun i => funext fun j => h i j, fun h i j => by rw [h]⟩

/-- `tmp = tl.sum(b_h * b_a[None, :], axis=1)` — the state contracted with
`a_t` over the K axis, i.e. `tmp_t = S_{t-1} · a_t`.  Stored as `ha_t`. -/
def haVec (S : Mat K V) (a : Fin K → ℚ) : Fin V → ℚ :=
  fun j => ∑ i, S i j * a i

/-- `b_h += tmp[:, None] * b_b[None, :] + b_k[None, :] * b_v[:, None]` —
the state update `S_t = S_{t-1} + outer(tmp_t, b_t) + outer(v_t, k_t)`. -/
def stepS (S : Mat K V) (x : TStep K V) : Mat K V :=
  fun i j => S i j + haVec S x.a j * x.b i + x.v j * x.k i

/-- `b_o = tl.sum(b_h * b_q[None, :], axis=1)` with `b_q` pre-multiplied by
`scale`: the output `o_t = S_t · (q_t * scale)`, contracting K. -/
def stepO (scale : ℚ) (S : Mat K V) (q : Fin K → ℚ) : Fin V → ℚ :=
  fun j => ∑ i, S i j * (q i * scale)

/-- The forward loop of `fused_recurrent_fwd_kernel` (lines 77–97): starting
from a given state, process the timesteps in list order (strictly increasing
time), emitting the output row and the cached `ha` row at each step and
returning the final state.  Result: `(o rows, ha rows, S_T)`. -/
def fused_recurrent_fwd (scale : ℚ) :
    Mat K V → List (TStep K V) → List (Fin V → ℚ) × List (Fin V → ℚ) × Mat K V
  | S, [] => ([], [], S)
  | S, x :: xs =>
    let tmp := haVec S x.a
    let S1 := stepS S x
    let o := stepO scale S1 x.q
    let r := fused_recurrent_fwd scale S1 xs
    (o :: r.1, tmp :: r.2.1, r.2.2)

/-- The state after the first `t` timesteps: `S_0` is the seed
(initial state, or zero when absent), `S_t = stepS S_{t-1} x_t`. -/
def stateAt (S0 : Mat K V) (xs : List (TStep K V)) (t : ℕ) : Mat K V :=
  (xs.take t).foldl stepS S0

/-- The delta-rule form of the update, read directly off the spec's glossary:
with the state viewed in its `[V, K]` register layout, `S_t = S_{t-1}(I +
a_t b_t^T) + v_t k_t^T`; in the `[K, V]` memory layout used here this is
`S_t[i,j] = Σ_m S_{t-1}[m,j]·(δ_{m i} + a_m b_i) + v_j k_i`. -/
def deltaStep (S : Mat K V) (x : TStep K V) : Mat K V :=
  fun i j => (∑ m, S m j * ((if m = i then 1 else 0) + x.a m * x.b i)) + x.v j * x.k i

lemma stateAt_zero (S0 : Mat K V) (xs : List (TStep K V)) : stateAt S0 xs 0 = S0 := rfl

lemma stateAt_cons_succ (S0 : Mat K V) (x : TStep K V) (xs : List (TStep K V)) (t : ℕ) :
    stateAt S0 (x :: xs) (t + 1) = stateAt (stepS S0 x) xs t := rfl

lemma stepS_eq_deltaStep (S : Mat K V) (x : TStep K V) : stepS S x = deltaStep S x := by
  funext i j
  have h1 : (∑ m, S m j * (if m = i then (1 : ℚ) else 0)) = S i j := by
    simp [mul_ite]
  have h2 : (∑ m, S m j * (x.a m * x.b i)) = haVec S x.a j * x.b i := by
    rw [haVec, Finset.sum_mul]
    exact Finset.sum_congr rfl fun m _ => by ring
  simp only [deltaStep, stepS, mul_add, Finset.sum_add_distrib, h1, h2]

lemma fwd_final_state (scale : ℚ) (xs : List (TStep K V)) :
    ∀ S0 : Mat K V, (fused_recurrent_fwd scale S0 xs).2.2 = stateAt S0 xs xs.length := by
  induction xs with
  | nil => intro S0; rfl
  | cons x xs ih =>
    intro S0
    show (fused_recurrent_fwd scale (stepS S0 x) xs).2.2 = _
    rw [ih (stepS S0 x)]
    rfl

lemma fwd_spec (scale : ℚ) (xs : List (TStep K V)) :
    ∀ (S0 : Mat K V) (t : ℕ) (ht : t < xs.length),
      (fused_recurrent_fwd scale S0 xs).2.1.getD t (fun _ => 0)
        = haVec (stateAt S0 xs t) (xs.get ⟨t, ht⟩).a
      ∧ (fused_recurrent_fwd scale S0 xs).1.getD t (fun _ => 0)
        = stepO scale (stateAt S0 xs (t + 1)) (xs.get ⟨t, ht⟩).q
      ∧ stateAt S0 xs (t + 1) = stepS (stateAt S0 xs t) (xs.get ⟨t, ht⟩) := by
  induction xs with
  | nil => intro S0 t ht; simp at ht
  | cons x xs ih =>
    intro S0 t ht
    match t with
    | 0 => exact ⟨rfl, rfl, rfl⟩
    | t + 1 =>
      have h := ih (stepS S0 x) t (by simpa using ht)
      exact ⟨h.1, h.2.1, h.2.2⟩

/-- **C1.** For every (batch-or-segment, head) program, every seed state `S0`
(the provided initial state, or zero when absent), and every timestep `t`,
the sequential forward kernel computes `tmp_t = S_{t-1} · a_t` (contracting
K) and stores it as `ha_t`, updates
`S_t = S_{t-1} + outer(tmp_t, b_t) + outer(v_t, k_t)`, and emits
`o_t = S_t · (q_t * scale)` (contracting K), processing timesteps strictly in
increasing order (`S_t` is a fold over the length-`t` prefix and the final
state is the fold over the whole list); the update is equivalent to the
delta-rule form `S_t = S_{t-1}(I + a_t b_t^T) + v_t k_t^T`. -/
theorem C1_fwd_recurrence_and_delta_rule (scale : ℚ) (S0 : Mat K V)
    (xs : List (TStep K V)) (t : ℕ) (ht : t < xs.length) :
    (fused_recurrent_fwd scale S0 xs).2.1.getD t (fun _ => 0)
      = haVec (stateAt S0 xs t) (xs.get ⟨t, ht⟩).a
    ∧ (fused_recurrent_fwd scale S0 xs).1.getD t (fun _ => 0)
      = stepO scale (stateAt S0 xs (t + 1)) (xs.get ⟨t, ht⟩).q
    ∧ stateAt S0 xs (t + 1) = stepS (stateAt S0 xs t) (xs.get ⟨t, ht⟩)
    ∧ stepS (stateAt S0 xs t) (xs.get ⟨t, ht⟩)
      = deltaStep (stateAt S0 xs t) (xs.get ⟨t, ht⟩)
    ∧ (fused_recurrent_fwd scale S0 xs).2.2 = stateAt S0 xs xs.length := by
  obtain ⟨h1, h2, h3⟩ := fwd_spec scale xs S0 t ht
  exact ⟨h1, h2, h3, stepS_eq_deltaStep _ _, fwd_final_state scale xs S0⟩

/-- A concrete two-step input at `K = V = 1` used by the witnesses. -/
def xsW : List (TStep 1 1) :=
  [⟨fun _ => 2, fun _ => 3, fun _ => 5, fun _ => 7, fun _ => 11⟩,
   ⟨fun _ => 1, fun _ => 4, fun _ => 6, fun _ => 2, fun _ => 9⟩]

/-- Witness for C1 at a concrete input. -/
theorem C1_fwd_recurrence_and_delta_rule_witness :
    0 < xsW.length
    ∧ ((fused_recurrent_fwd 1 (Mat.zero 1 1) xsW).2.1.getD 0 (fun _ => 0)
        = haVec (stateAt (Mat.zero 1 1) xsW 0) (xsW.get ⟨0, by decide⟩).a
      ∧ (fused_recurrent_fwd 1 (Mat.zero 1 1) xsW).1.getD 0 (fun _ => 0)
        = stepO 1 (stateAt (Mat.zero 1 1) xsW 1) (xsW.get ⟨0, by decide⟩).q
      ∧ stateAt (Mat.zero 1 1) xsW 1
        = stepS (stateAt (Mat.zero 1 1) xsW 0) (xsW.get ⟨0, by decide⟩)
      ∧ stepS (stateAt (Mat.zero 1 1) xsW 0) (xsW.get ⟨0, by decide⟩)
        = deltaStep (stateAt (Mat.zero 1 1) xsW 0) (xsW.get ⟨0, by decide⟩)
      ∧ (fused_recurrent_fwd 1 (Mat.zero 1 1) xsW).2.2
        = stateAt (Mat.zero 1 1) xsW xsW.length) :=
  ⟨by decide, C1_fwd_recurrence_and_delta_rule 1 (Mat.zero 1 1) xsW 0 (by decide)⟩

/-- One timestep of backward input for one (batch, head): the forward rows
`q,k,v,a,b`, the forward-cached `ha` row, and the upstream output gradient
row `do` (named `dO`: `do` is reserved). -/
structure BStep (K V : ℕ) where
  q : Fin K → ℚ
  k : Fin K → ℚ
  v : Fin V → ℚ
  a : Fin K → ℚ
  b : Fin K → ℚ
  ha : Fin V → ℚ
  dO : Fin V → ℚ

/-- The four gradient rows stored by backward pass 1 at one timestep. -/
structure BOut1 (K V : ℕ) where
  dk : Fin K → ℚ
  dv : Fin V → ℚ
  dha : Fin V → ℚ
  db : Fin K → ℚ

/-- All-zero `BOut1`, the `getD` default. -/
def BOut1.zero (K V : ℕ) : BOut1 K V :=
  ⟨fun _ => 0, fun _ => 0, fun _ => 0, fun _ => 0⟩

/-- `b_dh += b_q[:, None] * b_do[None, :]` with `b_q` pre-scaled:
the first fold of pass 1, `dS += outer(q_t * scale, do_t)`. -/
def qdoFold (scale : ℚ) (dS : Mat K V) (x : BStep K V) : Mat K V :=
  fun i j => dS i j + x.q i * scale * x.dO j

/-- The body of the descending loop of `fused_recurrent_bwd_kernel`
(lines 198–229), given the adjoint state entering the timestep: fold in
`outer(q*scale, do)`, read `dk`, `dv`, `dha`, `db` off that pre-a-fold
adjoint, then fold in `outer(a, dha)`. -/
def bwd1Fold (scale : ℚ) (dS : Mat K V) (x : BStep K V) : BOut1 K V × Mat K V :=
  let dS1 := qdoFold scale dS x
  let dk := fun i => ∑ j, dS1 i j * x.v j
  let dv := fun j => ∑ i, dS1 i j * x.k i
  let dha := fun j => ∑ i, dS1 i j * x.b i
  let db := fun i => ∑ j, dS1 i j * x.ha j
  (⟨dk, dv, dha, db⟩, fun i j => dS1 i j + dha j * x.a i)

/-- Backward pass 1 (lines 193–233): timesteps are processed in strictly
decreasing order (the recursion handles the tail — all later timesteps —
before the head), seeded with `dht` (or zero).  Returns the per-timestep
gradient rows in ascending-time order and the final adjoint state, which is
stored as `dh0` when requested. -/
def fused_recurrent_bwd1 (scale : ℚ) :
    List (BStep K V) → Mat K V → List (BOut1 K V) × Mat K V
  | [], dS => ([], dS)
  | x :: xs, dS =>
    let r := fused_recurrent_bwd1 scale xs dS
    let s := bwd1Fold scale r.2 x
    (s.1 :: r.1, s.2)

/-- The adjoint state after pass 1 has processed all timesteps `≥ t`
(descending); `adjAt T` is the `dht` seed, `adjAt 0` is the final adjoint
(= `dh0`). -/
def adjAt (scale : ℚ) (dht : Mat K V) (xs : List (BStep K V)) (t : ℕ) : Mat K V :=
  (fused_recurrent_bwd1 scale (xs.drop t) dht).2

lemma adjAt_len (scale : ℚ) (dht : Mat K V) (xs : List (BStep K V)) :
    adjAt scale dht xs xs.length = dht := by
  simp [adjAt, List.drop_length, fused_recurrent_bwd1]

lemma bwd1_eq_foldr (scale : ℚ) (xs : List (BStep K V)) (dht : Mat K V) :
    (fused_recurrent_bwd1 scale xs dht).2
      = xs.foldr (fun x dS => (bwd1Fold scale dS x).2) dht := by
  induction xs with
  | nil => rfl
  | cons x xs ih => simp [fused_recurrent_bwd1, ih]

lemma bwd1_spec (scale : ℚ) (xs : List (BStep K V)) (dht : Mat K V) :
    ∀ (t : ℕ) (ht : t < xs.length),
      (fused_recurrent_bwd1 scale xs dht).1.getD t (BOut1.zero K V)
        = (bwd1Fold scale (adjAt scale dht xs (t + 1)) (xs.get ⟨t, ht⟩)).1
      ∧ adjAt scale dht xs t
        = (bwd1Fold scale (adjAt scale dht xs (t + 1)) (xs.get ⟨t, ht⟩)).2 := by
  induction xs with
  | nil => intro t ht; simp at ht
  | cons x xs ih =>
    intro t ht
    match t with
    | 0 => exact ⟨rfl, rfl⟩
    | t + 1 =>
      have h := ih t (by simpa using ht)
      exact ⟨h.1, h.2⟩

/-- **C2.** In backward pass 1 (descending time, adjoint seeded from `dht`
or zero), at every timestep the kernel first folds `outer(q_t*scale, do_t)`
into `dS` (the `qdoFold`), then reads `dk_t = dS · v_t`, `dv_t = dS^T · k_t`
and `dha_t = dS^T · b_t` from that pre-a-fold adjoint, then
`db_t = dS · ha_t` using the forward-cached `ha_t`, and only afterwards
folds `dS += outer(a_t, dha_t)` to obtain the adjoint entering timestep
`t - 1`; the final adjoint (after processing timestep 0) is what is stored
as `dh0`.  The `dk`/`dv`/`dha` reads all use the adjoint before the a-fold. -/
theorem C2_bwd_pass1_order (scale : ℚ) (dht : Mat K V) (xs : List (BStep K V))
    (t : ℕ) (ht : t < xs.length) :
    ((fused_recurrent_bwd1 scale xs dht).1.getD t (BOut1.zero K V)).dk
      = (fun i => ∑ j, qdoFold scale (adjAt scale dht xs (t + 1)) (xs.get ⟨t, ht⟩) i j
          * (xs.get ⟨t, ht⟩).v j)
    ∧ ((fused_recurrent_bwd1 scale xs dht).1.getD t (BOut1.zero K V)).dv
      = (fun j => ∑ i, qdoFold scale (adjAt scale dht xs (t + 1)) (xs.get ⟨t, ht⟩) i j
          * (xs.get ⟨t, ht⟩).k i)
    ∧ ((fused_recurrent_bwd1 scale xs dht).1.getD t (BOut1.zero K V)).dha
      = (fun j => ∑ i, qdoFold scale (adjAt scale dht xs (t + 1)) (xs.get ⟨t, ht⟩) i j
          * (xs.get ⟨t, ht⟩).b i)
    ∧ ((fused_recurrent_bwd1 scale xs dht).1.getD t (BOut1.zero K V)).db
      = (fun i => ∑ j, qdoFold scale (adjAt scale dht xs (t + 1)) (xs.get ⟨t, ht⟩) i j
          * (xs.get ⟨t, ht⟩).ha j)
    ∧ adjAt scale dht xs t
      = (fun i j => qdoFold scale (adjAt scale dht xs (t + 1)) (xs.get ⟨t, ht⟩) i j
          + (∑ m, qdoFold scale (adjAt scale dht xs (t + 1)) (xs.get ⟨t, ht⟩) m j
              * (xs.get ⟨t, ht⟩).b m) * (xs.get ⟨t, ht⟩).a i)
    ∧ (fused_recurrent_bwd1 scale xs dht).2 = adjAt scale dht xs 0 := by
  obtain ⟨h1, h2⟩ := bwd1_spec scale xs dht t ht
  refine ⟨?_, ?_, ?_, ?_, ?_, rfl⟩
  · rw [h1]; rfl
  · rw [h1]; rfl
  · rw [h1]; rfl
  · rw [h1]; rfl
  · rw [h2]; funext i j; simp [bwd1Fold, mul_comm]

/-- A concrete two-step backward input at `K = V = 1` used by witnesses. -/
def bsW : List (BStep 1 1) :=
  [⟨fun _ => 2, fun _ => 3, fun _ => 5, fun _ => 7, fun _ => 11, fun _ => 13, fun _ => 1⟩,
   ⟨fun _ => 1, fun _ => 4, fun _ => 6, fun _ => 2, fun _ => 9, fun _ => 8, fun _ => 3⟩]

/-- Witness for C2 at a concrete input. -/
theorem C2_bwd_pass1_order_witness :
    0 < bsW.length
    ∧ (((fused_recurrent_bwd1 1 bsW (Mat.zero 1 1)).1.getD 0 (BOut1.zero 1 1)).dk
        = (fun i => ∑ j, qdoFold 1 (adjAt 1 (Mat.zero 1 1) bsW 1) (bsW.get ⟨0, by decide⟩) i j
            * (bsW.get ⟨0, by decide⟩).v j)
      ∧ ((fused_recurrent_bwd1 1 bsW (Mat.zero 1 1)).1.getD 0 (BOut1.zero 1 1)).dv
        = (fun j => ∑ i, qdoFold 1 (adjAt 1 (Mat.zero 1 1) bsW 1) (bsW.get ⟨0, by decide⟩) i j
            * (bsW.get ⟨0, by decide⟩).k i)
      ∧ ((fused_recurrent_bwd1 1 bsW (Mat.zero 1 1)).1.getD 0 (BOut1.zero 1 1)).dha
        = (fun j => ∑ i, qdoFold 1 (adjAt 1 (Mat.zero 1 1) bsW 1) (bsW.get ⟨0, by decide⟩) i j
            * (bsW.get ⟨0, by decide⟩).b i)
      ∧ ((fused_recurrent_bwd1 1 bsW (Mat.zero 1 1)).1.getD 0 (BOut1.zero 1 1)).db
        = (fun i => ∑ j, qdoFold 1 (adjAt 1 (Mat.zero 1 1) bsW 1) (bsW.get ⟨0, by decide⟩) i j
            * (bsW.get ⟨0, by decide⟩).ha j)
      ∧ adjAt 1 (Mat.zero 1 1) bsW 0
        = (fun i j => qdoFold 1 (adjAt 1 (Mat.zero 1 1) bsW 1) (bsW.get ⟨0, by decide⟩) i j
            + (∑ m, qdoFold 1 (adjAt 1 (Mat.zero 1 1) bsW 1) (bsW.get ⟨0, by decide⟩) m j
                * (bsW.get ⟨0, by decide⟩).b m) * (bsW.get ⟨0, by decide⟩).a i)
      ∧ (fused_recurrent_bwd1 1 bsW (Mat.zero 1 1)).2 = adjAt 1 (Mat.zero 1 1) bsW 0) :=
  ⟨by decide, C2_bwd_pass1_order 1 (Mat.zero 1 1) bsW 0 (by decide)⟩

/-- One timestep of input for backward pass 2: forward rows `k, b, v`,
the forward-cached `ha`, the upstream `do`, and the `dha` row that pass 1
stored for this timestep. -/
structure B2Step (K V : ℕ) where
  k : Fin K → ℚ
  b : Fin K → ℚ
  v : Fin V → ℚ
  ha : Fin V → ℚ
  dO : Fin V → ℚ
  dha : Fin V → ℚ

/-- `b_h += b_k[:, None] * b_v[None, :] + b_b[:, None] * b_ha[None, :]` —
the pass-2 state rebuild `S += outer(k_t, v_t) + outer(b_t, ha_t)`. -/
def step2S (S : Mat K V) (x : B2Step K V) : Mat K V :=
  fun i j => S i j + x.k i * x.v j + x.b i * x.ha j

/-- Backward pass 2 (lines 237–274): ascending time from the rebuilt state
seed (`h0` or zero); at each timestep read `da` off the pre-update state,
rebuild the state, then read `dq` off the post-update state.  Returns the
per-timestep `(da, dq)` rows. -/
def fused_recurrent_bwd2 (scale : ℚ) :
    Mat K V → List (B2Step K V) → List ((Fin K → ℚ) × (Fin K → ℚ))
  | _, [] => []
  | S, x :: xs =>
    let da := fun i => ∑ j, x.dha j * S i j
    let S1 := step2S S x
    let dq := fun i => (∑ j, S1 i j * x.dO j) * scale
    (da, dq) :: fused_recurrent_bwd2 scale S1 xs

/-- The rebuilt forward state before timestep `t` of pass 2. -/
def state2At (S0 : Mat K V) (zs : List (B2Step K V)) (t : ℕ) : Mat K V :=
  (zs.take t).foldl step2S S0

/-- Wire pass 1's stored `dha` rows into the pass-2 inputs, as the kernel
does through the `dha` buffer. -/
def bwd2Steps (xs : List (BStep K V)) (outs : List (BOut1 K V)) : List (B2Step K V) :=
  (xs.zip outs).map fun p => ⟨p.1.k, p.1.b, p.1.v, p.1.ha, p.1.dO, p.2.dha⟩

/-- The full backward kernel: pass 1 (descending) then pass 2 (ascending),
with pass 2 consuming the `dha` buffer written by pass 1.  Returns
(pass-1 rows, pass-2 rows, final adjoint `dh0`). -/
def fused_recurrent_bwd (scale : ℚ) (xs : List (BStep K V)) (dht h0 : Mat K V) :
    List (BOut1 K V) × List ((Fin K → ℚ) × (Fin K → ℚ)) × Mat K V :=
  let p1 := fused_recurrent_bwd1 scale xs dht
  (p1.1, fused_recurrent_bwd2 scale h0 (bwd2Steps xs p1.1), p1.2)

lemma bwd1_out_length (scale : ℚ) (xs : List (BStep K V)) (dht : Mat K V) :
    (fused_recurrent_bwd1 scale xs dht).1.length = xs.length := by
  induction xs with
  | nil => rfl
  | cons x xs ih => simp [fused_recurrent_bwd1, ih]

lemma bwd2Steps_length (xs : List (BStep K V)) (outs : List (BOut1 K V)) :
    (bwd2Steps xs outs).length = min xs.length outs.length := by
  simp [bwd2Steps]

lemma bwd2_spec (scale : ℚ) (zs : List (B2Step K V)) :
    ∀ (S0 : Mat K V) (t : ℕ) (ht : t < zs.length),
      (fused_recurrent_bwd2 scale S0 zs).getD t (fun _ => 0, fun _ => 0)
        = (fun i => ∑ j, (zs.get ⟨t, ht⟩).dha j * state2At S0 zs t i j,
           fun i => (∑ j, step2S (state2At S0 zs t) (zs.get ⟨t, ht⟩) i j
             * (zs.get ⟨t, ht⟩).dO j) * scale)
      ∧ state2At S0 zs (t + 1) = step2S (state2At S0 zs t) (zs.get ⟨t, ht⟩) := by
  induction zs with
  | nil => intro S0 t ht; simp at ht
  | cons z zs ih =>
    intro S0 t ht
    match t with
    | 0 => exact ⟨rfl, rfl⟩
    | t + 1 =>
      have h := ih (step2S S0 z) t (by simpa using ht)
      exact ⟨h.1, h.2⟩

lemma bwd2Steps_get :
    ∀ (xs : List (BStep K V)) (outs : List (BOut1 K V)) (t : ℕ)
      (h1 : t < xs.length) (h2 : t < outs.length) (h3 : t < (bwd2Steps xs outs).length),
      (bwd2Steps xs outs).get ⟨t, h3⟩
        = ⟨(xs.get ⟨t, h1⟩).k, (xs.get ⟨t, h1⟩).b, (xs.get ⟨t, h1⟩).v,
           (xs.get ⟨t, h1⟩).ha, (xs.get ⟨t, h1⟩).dO, (outs.get ⟨t, h2⟩).dha⟩ := by
  intro xs
  induction xs with
  | nil => intro outs t h1; simp at h1
  | cons x xs ih =>
    intro outs t h1 h2 h3
    match outs, t with
    | [], _ => simp at h2
    | o :: outs, 0 => rfl
    | o :: outs, t + 1 =>
      exact ih outs t (by simpa using h1) (by simpa using h2)
        (by simpa [bwd2Steps] using h3)

/-- **C3.** In backward pass 2 (ascending time, forward state rebuilt from
the initial state `h0` or zero), at every timestep `da_t = S · dha_t` is
read off the pre-update rebuilt state using the `dha_t` stored by pass 1,
then the state is updated as `S += outer(k_t, v_t) + outer(b_t, ha_t)`
using the forward-cached `ha_t`, and `dq_t = (S · do_t) * scale` is read
off the post-update state. -/
theorem C3_bwd_pass2_rebuild (scale : ℚ) (dht h0 : Mat K V)
    (xs : List (BStep K V)) (t : ℕ) (ht : t < xs.length) :
    (fused_recurrent_bwd scale xs dht h0).2.1.getD t (fun _ => 0, fun _ => 0)
      = (fun i => ∑ j,
            ((fused_recurrent_bwd1 scale xs dht).1.getD t (BOut1.zero K V)).dha j
            * state2At h0 (bwd2Steps xs (fused_recurrent_bwd1 scale xs dht).1) t i j,
         fun i => (∑ j,
            state2At h0 (bwd2Steps xs (fused_recurrent_bwd1 scale xs dht).1) (t + 1) i j
            * (xs.get ⟨t, ht⟩).dO j) * scale)
    ∧ state2At h0 (bwd2Steps xs (fused_recurrent_bwd1 scale xs dht).1) (t + 1)
      = (fun i j =>
          state2At h0 (bwd2Steps xs (fused_recurrent_bwd1 scale xs dht).1) t i j
          + (xs.get ⟨t, ht⟩).k i * (xs.get ⟨t, ht⟩).v j
          + (xs.get ⟨t, ht⟩).b i * (xs.get ⟨t, ht⟩).ha j) := by
  have hlen : t < (fused_recurrent_bwd1 scale xs dht).1.length := by
    rw [bwd1_out_length]; exact ht
  have hz : t < (bwd2Steps xs (fused_recurrent_bwd1 scale xs dht).1).length := by
    rw [bwd2Steps_length]; exact lt_min ht hlen
  obtain ⟨h1, h2⟩ :=
    bwd2_spec scale (bwd2Steps xs (fused_recurrent_bwd1 scale xs dht).1) h0 t hz
  rw [bwd2Steps_get xs (fused_recurrent_bwd1 scale xs dht).1 t ht hlen hz] at h1 h2
  rw [List.getD_eq_getElem _ _ hlen]
  exact ⟨h2 ▸ h1, h2⟩

/-- Witness for C3 at a concrete input. -/
theorem C3_bwd_pass2_rebuild_witness :
    0 < bsW.length
    ∧ ((fused_recurrent_bwd 1 bsW (Mat.zero 1 1) (Mat.zero 1 1)).2.1.getD 0
          (fun _ => 0, fun _ => 0)
        = (fun i => ∑ j,
              ((fused_recurrent_bwd1 1 bsW (Mat.zero 1 1)).1.getD 0 (BOut1.zero 1 1)).dha j
              * state2At (Mat.zero 1 1)
                  (bwd2Steps bsW (fused_recurrent_bwd1 1 bsW (Mat.zero 1 1)).1) 0 i j,
           fun i => (∑ j,
              state2At (Mat.zero 1 1)
                  (bwd2Steps bsW (fused_recurrent_bwd1 1 bsW (Mat.zero 1 1)).1) 1 i j
              * (bsW.get ⟨0, by decide⟩).dO j) * 1)
      ∧ state2At (Mat.zero 1 1)
            (bwd2Steps bsW (fused_recurrent_bwd1 1 bsW (Mat.zero 1 1)).1) 1
        = (fun i j =>
            state2At (Mat.zero 1 1)
                (bwd2Steps bsW (fused_recurrent_bwd1 1 bsW (Mat.zero 1 1)).1) 0 i j
            + (bsW.get ⟨0, by decide⟩).k i * (bsW.get ⟨0, by decide⟩).v j
            + (bsW.get ⟨0, by decide⟩).b i * (bsW.get ⟨0, by decide⟩).ha j)) :=
  ⟨by decide, C3_bwd_pass2_rebuild 1 (Mat.zero 1 1) (Mat.zero 1 1) bsW 0 (by decide)⟩

lemma fwd_append (scale : ℚ) (xs ys : List (TStep K V)) :
    ∀ S0 : Mat K V,
      fused_recurrent_fwd scale S0 (xs ++ ys)
        = ((fused_recurrent_fwd scale S0 xs).1
            ++ (fused_recurrent_fwd scale (fused_recurrent_fwd scale S0 xs).2.2 ys).1,
           (fused_recurrent_fwd scale S0 xs).2.1
            ++ (fused_recurrent_fwd scale (fused_recurrent_fwd scale S0 xs).2.2 ys).2.1,
           (fused_recurrent_fwd scale (fused_recurrent_fwd scale S0 xs).2.2 ys).2.2) := by
  induction xs with
  | nil => intro S0; simp [fused_recurrent_fwd]
  | cons x xs ih =>
    intro S0
    simp [fused_recurrent_fwd, ih (stepS S0 x)]

/-- **C5.** Running the forward once from the zero initial state over a
sequence split as `xs ++ ys` produces the same result as two consecutive
calls where the final state of the first call is passed as the initial
state of the second: the two calls' outputs concatenate to the single-call
outputs, and the second call's final state equals the single-call final
state. -/
theorem C5_state_carry_chunking (scale : ℚ) (xs ys : List (TStep K V)) :
    (fused_recurrent_fwd scale (Mat.zero K V) (xs ++ ys)).1
      = (fused_recurrent_fwd scale (Mat.zero K V) xs).1
        ++ (fused_recurrent_fwd scale
              (fused_recurrent_fwd scale (Mat.zero K V) xs).2.2 ys).1
    ∧ (fused_recurrent_fwd scale (Mat.zero K V) (xs ++ ys)).2.2
      = (fused_recurrent_fwd scale
          (fused_recurrent_fwd scale (Mat.zero K V) xs).2.2 ys).2.2 := by
  rw [fwd_append scale xs ys (Mat.zero K V)]
  exact ⟨rfl, rfl⟩

/-- The forward loop as the Triton kernel executes it in variable-length
mode: a flat time-indexed input buffer `inp` and an explicit read position
that starts at `bos` and advances by one row per step (the kernel's
`p_* += K*H` pointer bumps), running for `T` steps. -/
def fwdLoop (scale : ℚ) (inp : ℕ → TStep K V) :
    ℕ → ℕ → Mat K V → List (Fin V → ℚ) × List (Fin V → ℚ) × Mat K V
  | _, 0, S => ([], [], S)
  | pos, T + 1, S =>
    let x := inp pos
    let tmp := haVec S x.a
    let S1 := stepS S x
    let o := stepO scale S1 x.q
    let r := fwdLoop scale inp (pos + 1) T S1
    (o :: r.1, tmp :: r.2.1, r.2.2)

/-- One (segment, head) program of `fused_recurrent_fwd_kernel` in varlen
mode (lines 53–55, 73–75): the program derives `bos = cu_seqlens[n]`,
`eos = cu_seqlens[n+1]`, runs for `T = eos - bos` steps over the flat
buffer starting at `bos`, and seeds the state with its own per-segment
initial state `h0s n`. -/
def varlen_seg_fwd (scale : ℚ) (inp : ℕ → TStep K V) (cu : List ℕ)
    (h0s : ℕ → Mat K V) (n : ℕ) :
    List (Fin V → ℚ) × List (Fin V → ℚ) × Mat K V :=
  fwdLoop scale inp (cu.getD n 0) (cu.getD (n + 1) 0 - cu.getD n 0) (h0s n)

lemma fwdLoop_eq_fwd (scale : ℚ) (inp : ℕ → TStep K V) :
    ∀ (T bos : ℕ) (S0 : Mat K V),
      fwdLoop scale inp bos T S0
        = fused_recurrent_fwd scale S0 ((List.range T).map fun t => inp (bos + t)) := by
  intro T
  induction T with
  | zero => intro bos S0; simp [fwdLoop, fused_recurrent_fwd]
  | succ T ih =>
    intro bos S0
    rw [List.range_succ_eq_map, List.map_cons, List.map_map]
    show (_, _, _) = fused_recurrent_fwd scale S0 (inp (bos + 0) :: _)
    simp only [fused_recurrent_fwd, Nat.add_zero]
    rw [ih (bos + 1) (stepS S0 (inp bos))]
    have harg : ((fun t => inp (bos + t)) ∘ Nat.succ) = fun t => inp (bos + 1 + t) := by
      funext t
      simp only [Function.comp]
      congr 1
      omega
    rw [harg]

lemma fwdLoop_congr (scale : ℚ) :
    ∀ (T pos : ℕ) (S : Mat K V) (inp inp2 : ℕ → TStep K V),
      (∀ u, pos ≤ u → u < pos + T → inp u = inp2 u) →
      fwdLoop scale inp pos T S = fwdLoop scale inp2 pos T S := by
  intro T
  induction T with
  | zero => intro pos S inp inp2 _; rfl
  | succ T ih =>
    intro pos S inp inp2 hag
    have h0 : inp pos = inp2 pos := hag pos le_rfl (by omega)
    simp only [fwdLoop, h0]
    rw [ih (pos + 1) _ inp inp2 (fun u hu1 hu2 => hag u (by omega) (by omega))]

/-- **C4.** When `cu_seqlens` partitions a flattened batch into segments,
every (segment, head) program derives its own `[bos, eos)` range from
`cu_seqlens` and starts from its own per-segment initial state, so its
outputs, cached `ha` rows and final state are identical to processing the
segment's slice alone with batch size 1 (`fused_recurrent_fwd` seeded with
that segment's initial state); moreover the result is unchanged under any
modification of the flat input outside `[bos, eos)` and of the initial
states of other segments — no state crosses a segment boundary. -/
theorem C4_varlen_segment_isolation (scale : ℚ) (inp inp2 : ℕ → TStep K V)
    (cu : List ℕ) (h0s h0s2 : ℕ → Mat K V) (n : ℕ)
    (_hn : n + 1 < cu.length)
    (hagree : ∀ u, cu.getD n 0 ≤ u → u < cu.getD (n + 1) 0 → inp u = inp2 u)
    (hh0 : h0s n = h0s2 n) :
    varlen_seg_fwd scale inp cu h0s n
      = fused_recurrent_fwd scale (h0s n)
          ((List.range (cu.getD (n + 1) 0 - cu.getD n 0)).map
            fun t => inp (cu.getD n 0 + t))
    ∧ varlen_seg_fwd scale inp cu h0s n = varlen_seg_fwd scale inp2 cu h0s2 n := by
  constructor
  · exact fwdLoop_eq_fwd scale inp _ _ (h0s n)
  · show fwdLoop scale inp _ _ (h0s n) = fwdLoop scale inp2 _ _ (h0s2 n)
    rw [hh0]
    exact fwdLoop_congr scale _ _ _ inp inp2
      (fun u hu1 hu2 => hagree u hu1 (by omega))

/-- A concrete flat input buffer at `K = V = 1` for the C4 witness:
three timesteps, with `cu_seqlens = [0, 1, 3]` splitting them as one
segment of length 1 and one of length 2. -/
def inpW : ℕ → TStep 1 1 :=
  fun t => ⟨fun _ => (t : ℚ) + 1, fun _ => 2, fun _ => 3, fun _ => 4, fun _ => 5⟩

/-- A second flat buffer agreeing with `inpW` on segment 1's range `[1, 3)`
but different at position 0 (which belongs to segment 0). -/
def inpW2 : ℕ → TStep 1 1 :=
  fun t => if t = 0 then ⟨fun _ => 100, fun _ => 100, fun _ => 100, fun _ => 100, fun _ => 100⟩
    else inpW t

/-- Witness for C4: segment `n = 1` of `cu_seqlens = [0, 1, 3]`. -/
theorem C4_varlen_segment_isolation_witness :
    (1 + 1 < ([0, 1, 3] : List ℕ).length)
    ∧ (varlen_seg_fwd 1 inpW [0, 1, 3] (fun _ => Mat.zero 1 1) 1
        = fused_recurrent_fwd 1 ((fun _ => Mat.zero 1 1) 1)
            ((List.range (([0, 1, 3] : List ℕ).getD 2 0 - ([0, 1, 3] : List ℕ).getD 1 0)).map
              fun t => inpW (([0, 1, 3] : List ℕ).getD 1 0 + t))
      ∧ varlen_seg_fwd 1 inpW [0, 1, 3] (fun _ => Mat.zero 1 1) 1
        = varlen_seg_fwd 1 inpW2 [0, 1, 3] (fun _ => Mat.zero 1 1) 1) :=
  ⟨by decide,
   C4_varlen_segment_isolation 1 inpW inpW2 [0, 1, 3]
     (fun _ => Mat.zero 1 1) (fun _ => Mat.zero 1 1) 1 (by decide)
     (fun u hu1 _ => by
       simp only [List.getD] at hu1
       have : u ≠ 0 :=
         Nat.pos_iff_ne_zero.mp (Nat.lt_of_lt_of_le Nat.zero_lt_one hu1)
       simp [inpW2, this])
     rfl⟩

/-- The effective scale resolved by the wrapper: either the default
`K ** -0.5` (recorded symbolically with the head dimension, since it is
irrational) or an explicitly provided positive value. -/
inductive EffScale where
  | rsqrtOfDim : ℕ → EffScale
  | explicit : ℚ → EffScale
deriving DecidableEq

/-- The real number an `EffScale` denotes: `K ** -0.5` for the default,
the given value otherwise. -/
noncomputable def EffScale.val : EffScale → ℝ
  | .rsqrtOfDim n => (n : ℝ) ^ (-(1 : ℝ) / 2)
  | .explicit s => (s : ℚ)

/-- Lines 437–440 of `fused_recurrent_iplr_delta_rule`: `scale = None`
defaults to `q.shape[-1] ** -0.5`; a provided scale must be positive
(`assert scale > 0`), and is otherwise used unchanged. -/
def resolveScale (Kdim : ℕ) : Option ℚ → Except String EffScale
  | none => .ok (.rsqrtOfDim Kdim)
  | some s => if 0 < s then .ok (.explicit s) else .error "scale must be positive"

/-- The kernel launch the wrapper performs once all checks pass: the
resolved scale together with the tensors handed to
`FusedRecurrentIPLRDeltaRuleFunction.apply`. -/
structure Launch (K V : ℕ) where
  effScale : EffScale
  data : ℕ → TStep K V
  cu : Option (List ℕ)
  h0 : Option (List (Mat K V))

/-- The argument validation of `fused_recurrent_iplr_delta_rule`
(lines 426–440), in source order: with `cu_seqlens` present, first the
batch-size check (`q.shape[0] == 1`), then the initial-state count check
(`initial_state.shape[0] == len(cu_seqlens) - 1`), then scale resolution;
only if all pass is the kernel launched (the `Launch` value produced).
`batch` is `q.shape[0]`, `h0` carries the per-sequence initial states. -/
def fused_recurrent_iplr_delta_rule (K V : ℕ) (batch : ℕ) (data : ℕ → TStep K V)
    (scale : Option ℚ) (h0 : Option (List (Mat K V))) (cu : Option (List ℕ)) :
    Except String (Launch K V) :=
  match cu with
  | some cuv =>
    if batch ≠ 1 then
      .error "The batch size is expected to be 1 when using cu_seqlens."
    else
      match h0 with
      | some states =>
        if states.length ≠ cuv.length - 1 then
          .error "The number of initial states is expected to be equal to the number of input sequences."
        else
          (resolveScale K scale).map fun e => ⟨e, data, cu, h0⟩
      | none => (resolveScale K scale).map fun e => ⟨e, data, cu, h0⟩
  | none => (resolveScale K scale).map fun e => ⟨e, data, cu, h0⟩

lemma effScale_default_val (Kdim : ℕ) :
    (EffScale.rsqrtOfDim Kdim).val = (Real.sqrt Kdim)⁻¹ := by
  have hK : (0 : ℝ) ≤ (Kdim : ℝ) := Nat.cast_nonneg Kdim
  rw [EffScale.val, Real.sqrt_eq_rpow, neg_div, Real.rpow_neg hK]

lemma resolveScale_none (Kd : ℕ) : resolveScale Kd none = .ok (.rsqrtOfDim Kd) := rfl

lemma resolveScale_pos (Kd : ℕ) (s : ℚ) (h : 0 < s) :
    resolveScale Kd (some s) = .ok (.explicit s) := by
  simp [resolveScale, h]

lemma resolveScale_nonpos (Kd : ℕ) (s : ℚ) (h : s ≤ 0) :
    resolveScale Kd (some s) = .error "scale must be positive" := by
  simp [resolveScale, not_lt.mpr h]

lemma except_map_ok {α β ε : Type} (f : α → β) (r : Except ε α) (b : β)
    (h : Except.map f r = .ok b) : ∃ a, r = .ok a ∧ b = f a := by
  cases r with
  | error m => exact absurd h (by simp [Except.map])
  | ok a =>
    refine ⟨a, rfl, ?_⟩
    simp only [Except.map] at h
    cases h
    rfl

lemma iplr_wrapper_ok (Kd V batch : ℕ) (data : ℕ → TStep Kd V) (scale : Option ℚ)
    (h0 : Option (List (Mat Kd V))) (cu : Option (List ℕ)) (L : Launch Kd V) :
    fused_recurrent_iplr_delta_rule Kd V batch data scale h0 cu = .ok L →
    resolveScale Kd scale = .ok L.effScale := by
  intro h
  unfold fused_recurrent_iplr_delta_rule at h
  repeat' split at h
  any_goals exact Except.noConfusion h
  all_goals
    obtain ⟨e, he, hL⟩ := except_map_ok _ _ _ h
  all_goals rw [he, hL]

/-- **C7.** For every call with `scale = None`, the effective scale handed
to the kernel is `K ** -0.5` (where `K` is the last dimension of `q`),
whose value is `1 / sqrt K`; for every call with a provided non-positive
scale, the call fails with an error, so no kernel launch value is ever
produced; a provided positive scale is used unchanged. -/
theorem C7_scale_defaulting (Kd V batch : ℕ) (data : ℕ → TStep Kd V)
    (h0 : Option (List (Mat Kd V))) (cu : Option (List ℕ)) :
    (∀ L : Launch Kd V,
        fused_recurrent_iplr_delta_rule Kd V batch data none h0 cu = .ok L →
        L.effScale = .rsqrtOfDim Kd ∧ L.effScale.val = (Real.sqrt Kd)⁻¹)
    ∧ (∀ s : ℚ, s ≤ 0 →
        ∃ msg, fused_recurrent_iplr_delta_rule Kd V batch data (some s) h0 cu
          = .error msg)
    ∧ (∀ s : ℚ, 0 < s → ∀ L : Launch Kd V,
        fused_recurrent_iplr_delta_rule Kd V batch data (some s) h0 cu = .ok L →
        L.effScale = .explicit s ∧ L.effScale.val = (s : ℝ)) := by
  refine ⟨?_, ?_, ?_⟩
  · intro L h
    have hr := iplr_wrapper_ok Kd V batch data none h0 cu L h
    rw [resolveScale_none] at hr
    injection hr with hr
    exact ⟨hr.symm, by rw [← hr]; exact effScale_default_val Kd⟩
  · intro s hs
    unfold fused_recurrent_iplr_delta_rule
    rw [resolveScale_nonpos Kd s hs]
    simp only [Except.map]
    repeat' split
    all_goals exact ⟨_, rfl⟩
  · intro s hs L h
    have hr := iplr_wrapper_ok Kd V batch data (some s) h0 cu L h
    rw [resolveScale_pos Kd s hs] at hr
    injection hr with hr
    exact ⟨hr.symm, by rw [← hr]; rfl⟩

/-- A constant flat input buffer at `K = 4, V = 1` for wrapper witnesses. -/
def data4 : ℕ → TStep 4 1 :=
  fun _ => ⟨fun _ => 1, fun _ => 1, fun _ => 1, fun _ => 1, fun _ => 1⟩

/-- A second, different buffer at `K = 4, V = 1`. -/
def data4b : ℕ → TStep 4 1 :=
  fun _ => ⟨fun _ => 2, fun _ => 2, fun _ => 2, fun _ => 2, fun _ => 2⟩

/-- Witness for C7 at concrete inputs. -/
theorem C7_scale_defaulting_witness :
    ((Launch.mk (EffScale.rsqrtOfDim 4) data4 none none : Launch 4 1).effScale
        = EffScale.rsqrtOfDim 4
      ∧ (Launch.mk (EffScale.rsqrtOfDim 4) data4 none none : Launch 4 1).effScale.val
        = (Real.sqrt ((4 : ℕ) : ℝ))⁻¹)
    ∧ (∃ msg, fused_recurrent_iplr_delta_rule 4 1 1 data4 (some (-1)) none none
        = .error msg)
    ∧ ((Launch.mk (EffScale.explicit 2) data4 none none : Launch 4 1).effScale
        = EffScale.explicit 2
      ∧ (Launch.mk (EffScale.explicit 2) data4 none none : Launch 4 1).effScale.val
        = ((2 : ℚ) : ℝ)) :=
  ⟨(C7_scale_defaulting 4 1 1 data4 none none).1
      ⟨.rsqrtOfDim 4, data4, none, none⟩ rfl,
   (C7_scale_defaulting 4 1 1 data4 none none).2.1 (-1) (by norm_num),
   (C7_scale_defaulting 4 1 1 data4 none none).2.2 2 (by norm_num)
      ⟨.explicit 2, data4, none, none⟩ rfl⟩

/-- **C8.** `fused_recurrent_iplr_delta_rule` raises an error — producing no
kernel launch and leaving the result independent of the tensor contents —
whenever `cu_seqlens` is supplied and the batch dimension is not 1, and
whenever `cu_seqlens` is supplied together with an initial state whose
first dimension differs from `len(cu_seqlens) - 1`. -/
theorem C8_varlen_validation (Kd V batch : ℕ) (data data2 : ℕ → TStep Kd V)
    (scale : Option ℚ) (h0 : Option (List (Mat Kd V))) (cuv : List ℕ) :
    (batch ≠ 1 →
      fused_recurrent_iplr_delta_rule Kd V batch data scale h0 (some cuv)
        = .error "The batch size is expected to be 1 when using cu_seqlens."
      ∧ fused_recurrent_iplr_delta_rule Kd V batch data scale h0 (some cuv)
        = fused_recurrent_iplr_delta_rule Kd V batch data2 scale h0 (some cuv))
    ∧ (∀ states : List (Mat Kd V), batch = 1 → states.length ≠ cuv.length - 1 →
      fused_recurrent_iplr_delta_rule Kd V batch data scale (some states) (some cuv)
        = .error "The number of initial states is expected to be equal to the number of input sequences."
      ∧ fused_recurrent_iplr_delta_rule Kd V batch data scale (some states) (some cuv)
        = fused_recurrent_iplr_delta_rule Kd V batch data2 scale (some states) (some cuv)) := by
  constructor
  · intro hb
    constructor <;> simp [fused_recurrent_iplr_delta_rule, hb]
  · intro states hb hs
    subst hb
    constructor <;> simp [fused_recurrent_iplr_delta_rule, hs]

/-- Witness for C8 at concrete inputs: batch 2 under `cu_seqlens = [0, 1]`,
and an empty initial-state list against `cu_seqlens = [0, 1, 2]`. -/
theorem C8_varlen_validation_witness :
    (fused_recurrent_iplr_delta_rule 4 1 2 data4 none none (some [0, 1])
        = .error "The batch size is expected to be 1 when using cu_seqlens."
      ∧ fused_recurrent_iplr_delta_rule 4 1 2 data4 none none (some [0, 1])
        = fused_recurrent_iplr_delta_rule 4 1 2 data4b none none (some [0, 1]))
    ∧ (fused_recurrent_iplr_delta_rule 4 1 1 data4 none (some []) (some [0, 1, 2])
        = .error "The number of initial states is expected to be equal to the number of input sequences."
      ∧ fused_recurrent_iplr_delta_rule 4 1 1 data4 none (some []) (some [0, 1, 2])
        = fused_recurrent_iplr_delta_rule 4 1 1 data4b none (some []) (some [0, 1, 2])) :=
  ⟨(C8_varlen_validation 4 1 2 data4 data4b none none [0, 1]).1 (by decide),
   (C8_varlen_validation 4 1 1 data4 data4b none none [0, 1, 2]).2 [] rfl (by decide)⟩

/-- `F.logsigmoid(x) = log(sigmoid(x)) = log(1 / (1 + exp(-x)))`, the real
idealization of the PyTorch primitive used at line 193 of `gsa.py`. -/
noncomputable def logsigmoid (x : ℝ) : ℝ := Real.log (1 / (1 + Real.exp (-x)))

/-- Lines 193–194 of `GatedSlotAttention.forward`:
`f = F.logsigmoid(f) / gate_logit_normalizer; s = 1 - f.exp()`. -/
noncomputable def gsaSlotDecay (f n : ℝ) : ℝ := 1 - Real.exp (logsigmoid f / n)

/-- **C9.** For every gate logit `f` and every positive
`gate_logit_normalizer` `n`, the slot decay
`s = 1 - exp(logsigmoid(f) / n)` computed by `GatedSlotAttention.forward`
lies in the interval `(0, 1]`. -/
theorem C9_slot_decay_in_unit_interval (f n : ℝ) (hn : 0 < n) :
    0 < gsaSlotDecay f n ∧ gsaSlotDecay f n ≤ 1 := by
  have hexp : 0 < Real.exp (-f) := Real.exp_pos _
  have hpos : 0 < 1 / (1 + Real.exp (-f)) := by positivity
  have hlt1 : 1 / (1 + Real.exp (-f)) < 1 := by
    rw [div_lt_one (by linarith)]
    linarith
  have hls : logsigmoid f < 0 := Real.log_neg hpos hlt1
  have hdiv : logsigmoid f / n < 0 := div_neg_of_neg_of_pos hls hn
  have h1 : Real.exp (logsigmoid f / n) < 1 := by
    rw [← Real.exp_zero]
    exact Real.exp_lt_exp.mpr hdiv
  have h2 : 0 < Real.exp (logsigmoid f / n) := Real.exp_pos _
  unfold gsaSlotDecay
  constructor <;> linarith

/-- Witness for C9 at `f = 0`, normalizer `8` (the layer default). -/
theorem C9_slot_decay_in_unit_interval_witness :
    (0 : ℝ) < 8 ∧ (0 < gsaSlotDecay 0 8 ∧ gsaSlotDecay 0 8 ≤ 1) :=
  ⟨by norm_num, C9_slot_decay_in_unit_interval 0 8 (by norm_num)⟩

/-- The caller-visible arguments of `GatedSlotAttention.forward`
(`gsa.py` lines 128–136): the hidden-state tensor, its sequence length
`q_len` (`hidden_states.shape[1]`), the rank of the attention mask when one
is supplied, the optional cache object, and the `use_cache` /
`output_attentions` flags.  `τ` abstracts tensors, `κ` cache objects. -/
structure GSAIn (τ κ : Type) where
  hiddenStates : τ
  qLen : ℕ
  maskRank : Option ℕ
  pastKeyValues : Option κ
  useCache : Bool
  outputAttentions : Bool

/-- The `GatedSlotAttention` layer, with its external collaborators
(projections, convolutions, feature maps, the GSA state-update engines
`fused_recurrent_gsa` / `chunk_gsa`, normalization, cache update) held as
opaque functions: the layer's own control flow in `forward` is what is
modelled.  `σ` abstracts the recurrent state. -/
structure GatedSlotAttention (τ σ κ : Type) where
  mode : String
  lastLayerState : κ → Option σ
  prep : τ → Option ℕ → τ
  runFusedRecurrent : τ → Option σ → Bool → τ × Option σ
  runChunk : τ → Option σ → Bool → τ × Option σ
  cacheUpdate : κ → Option σ → ℕ → κ
  postProcess : τ → Option ℕ → τ

/-- The body of `GatedSlotAttention.forward` after the mask assert
(lines 144–240): select the mode (`fused_recurrent` whenever
`q_len <= 64`, the configured mode otherwise), fetch the last cached
state, run the selected engine (raising for an unsupported mode), update
the cache when one was passed, post-process the output, and return the
triple `(o, None, past_key_values)` — the attention-weights slot is the
literal `None` of line 240. -/
def GatedSlotAttention.forwardBody (self : GatedSlotAttention τ σ κ)
    (x : GSAIn τ κ) : Except String (τ × Option τ × Option κ) :=
  let mode := if x.qLen ≤ 64 then "fused_recurrent" else self.mode
  let lastState := x.pastKeyValues.bind self.lastLayerState
  let prepped := self.prep x.hiddenStates x.maskRank
  let res : Except String (τ × Option σ) :=
    if mode = "fused_recurrent" then
      .ok (self.runFusedRecurrent prepped lastState x.useCache)
    else if mode = "chunk" then
      .ok (self.runChunk prepped lastState x.useCache)
    else .error "Not supported mode"
  res.map fun r =>
    (self.postProcess r.1 x.maskRank, none,
     x.pastKeyValues.map fun c => self.cacheUpdate c r.2 x.qLen)

/-- `GatedSlotAttention.forward` (lines 128–240): the mask assert of
lines 137–142 (rank must be 2) guards entry to the body. -/
def GatedSlotAttention.forward (self : GatedSlotAttention τ σ κ)
    (x : GSAIn τ κ) : Except String (τ × Option τ × Option κ) :=
  match x.maskRank with
  | some r =>
    if r ≠ 2 then .error "Expected attention_mask as a 0-1 matrix with shape [batch_size, seq_len]"
    else self.forwardBody x
  | none => self.forwardBody x

/-- **C10.** `GatedSlotAttention.forward` always returns `None` in the
attention-weights slot of its `(output, attentions, cache)` triple, and the
`output_attentions` argument has no effect on any returned value. -/
theorem C10_no_attentions_output (self : GatedSlotAttention τ σ κ)
    (x : GSAIn τ κ) :
    (∀ o att c, self.forward x = .ok (o, att, c) → att = none)
    ∧ (∀ b : Bool,
        self.forward { x with outputAttentions := b } = self.forward x) := by
  constructor
  · intro o att c h
    unfold GatedSlotAttention.forward GatedSlotAttention.forwardBody at h
    simp only [] at h
    repeat' split at h
    any_goals exact Except.noConfusion h
    all_goals
      simp only [Except.map] at h
      cases h
      rfl
  · intro b
    cases x
    rfl

/-- A concrete `GatedSlotAttention` instance over `ℕ`-coded tensors,
states and caches, for the C10 witness. -/
def gsaW : GatedSlotAttention ℕ ℕ ℕ :=
  ⟨"chunk", fun _ => none, fun h _ => h, fun h _ _ => (h + 1, some 0),
   fun h _ _ => (h + 2, some 0), fun c _ _ => c, fun o _ => o⟩

/-- A concrete forward call for the C10 witness: `q_len = 3`, no mask, no
cache, `output_attentions = true`. -/
def gsaInW : GSAIn ℕ ℕ := ⟨5, 3, none, none, false, true⟩

/-- Witness for C10 at a concrete call. -/
theorem C10_no_attentions_output_witness :
    (none : Option ℕ) = none
    ∧ GatedSlotAttention.forward gsaW { gsaInW with outputAttentions := false }
      = GatedSlotAttention.forward gsaW gsaInW :=
  ⟨(C10_no_attentions_output gsaW gsaInW).1 6 none none rfl,
   (C10_no_attentions_output gsaW gsaInW).2 false⟩
